import Mathlib

/-!
Verification of the signal-analysis core of the Estctrografia-Vocal-OBS
repository (src/utils/audioHelpers.ts and the smoothing / note-naming logic of
src/components/Spectrogram.tsx).

Embedding conventions:
* JavaScript numbers are modelled as exact rationals (`ℚ`).  A JavaScript
  expression whose value is non-finite (NaN or ±Infinity) is modelled by
  `Option ℚ` with `none` standing for the non-finite result, in the few places
  where the source can actually produce one (`calculateRMS` on an empty
  buffer, and its consumer `amplitudeToDecibels`).
* `Math.sqrt` and `Math.log10` are irrational-valued, so the functions that
  use their numeric output take them as explicit function parameters; theorems
  assume only facts that are true of the real square root / logarithm
  (for instance `sqrt 0 = 0`).  Inside `autoCorrelate` the silence test
  `sqrt (sumSq / SIZE) < 0.01` is modelled by the exactly equivalent squared
  comparison `sumSq / SIZE < 1/10000` (both sides are nonnegative and the real
  square root is strictly monotone there), which keeps the function fully
  computable.
* Sample buffers (`Float32Array`) are `List ℚ`; reads use `List.getD` with
  default `0` (every access proved relevant is in bounds).
* `Math.round` (round half toward +∞) is `⌊q + 1/2⌋`.
-/

namespace EstVocal

/-- Sum of squares of the buffer entries, the accumulator of the `for` loops
in `calculateRMS` (audioHelpers.ts lines 6-9) and `autoCorrelate`
(lines 38-41). -/
def sumSq (buf : List ℚ) : ℚ := (buf.map (fun x => x * x)).sum

/-- audioHelpers.ts lines 5-11, `calculateRMS`.  The real-valued
`Math.sqrt` is passed as a parameter.  For an empty buffer the source computes
`Math.sqrt (0 / 0) = Math.sqrt NaN = NaN`, modelled by `none`; otherwise the
value is `sqrt` of the mean square. -/
def calculateRMS (sqrt : ℚ → ℚ) (buf : List ℚ) : Option ℚ :=
  if buf.length = 0 then none
  else some (sqrt (sumSq buf / buf.length))

/-- audioHelpers.ts lines 18-23, `amplitudeToDecibels`.  The real-valued
`Math.log10` is passed as a parameter.  A NaN argument (`none`) propagates:
in JavaScript `NaN <= 0` is `false`, `20 * Math.log10 NaN = NaN` and
`Math.max (-100) NaN = NaN`, so the result is again non-finite. -/
def amplitudeToDecibels (log10 : ℚ → ℚ) (rms : Option ℚ) : Option ℚ :=
  match rms with
  | none => none
  | some r => if r ≤ 0 then some (-100) else some (max (-100) (20 * log10 r))

/-- The inner accumulation of `autoCorrelate` (audioHelpers.ts lines 51-53):
`Σ_{i < m} |buf[i] - buf[i + offset]|`. -/
def diffSum (buf : List ℚ) (offset : ℕ) : ℕ → ℚ
  | 0 => 0
  | m + 1 => diffSum buf offset m + |buf.getD m 0 - buf.getD (m + offset) 0|

/-- The normalized correlation written into `correlations[offset]`
(audioHelpers.ts line 55): `1 - diffSum / MAX_SAMPLES`. -/
def corrAt (buf : List ℚ) (M offset : ℕ) : ℚ :=
  1 - diffSum buf offset M / M

/-- Correlation read at a (possibly negative) signed index, as in the
parabolic-interpolation line 65 which indexes `correlations[bestOffset ± 1]`.
A negative index would be an out-of-bounds read in the source; the junk value
`0` is used here, and the theorems prove such an index never occurs on the
executed path. -/
def corrAtZ (buf : List ℚ) (M : ℕ) (o : ℤ) : ℚ :=
  if 0 ≤ o then corrAt buf M o.toNat else 0

/-- The mutable locals of the `autoCorrelate` scan loop
(audioHelpers.ts lines 32-35 and 46). -/
structure ACState where
  bestOffset : ℤ
  bestCorrelation : ℚ
  foundGoodCorrelation : Bool
  lastCorrelation : ℚ
deriving DecidableEq, Repr

/-- Initial loop state: `bestOffset = -1`, `bestCorrelation = 0`,
`foundGoodCorrelation = false`, `lastCorrelation = 1`. -/
def acInit : ACState := ⟨-1, 0, false, 1⟩

/-- Denominator of the parabolic-interpolation shift (audioHelpers.ts
line 65): `2 * (2*corr[b] - corr[b+1] - corr[b-1])`. -/
def acDenom (buf : List ℚ) (M : ℕ) (b : ℤ) : ℚ :=
  2 * (2 * corrAtZ buf M b - corrAtZ buf M (b + 1) - corrAtZ buf M (b - 1))

/-- The parabolic-interpolation shift of line 65. -/
def acShift (buf : List ℚ) (M : ℕ) (b : ℤ) : ℚ :=
  (corrAtZ buf M (b + 1) - corrAtZ buf M (b - 1)) / acDenom buf M b

/-- The interpolated lag `bestOffset + shift` of line 66. -/
def acInterp (buf : List ℚ) (M : ℕ) (b : ℤ) : ℚ :=
  (b : ℚ) + acShift buf M b

/-- One iteration of the `autoCorrelate` offset loop (audioHelpers.ts
lines 48-68).  `Sum.inl (offset, st)` models the early `return` on line 66,
recording the offset at which it fired and the state at that moment (the
caller reconstructs the returned value `sampleRate / (bestOffset + shift)`
from them); `Sum.inr` is the fall-through to the next offset. -/
def acStep (buf : List ℚ) (M : ℕ) (offset : ℕ) (st : ACState) :
    (ℕ × ACState) ⊕ ACState :=
  let c := corrAt buf M offset
  if 9 / 10 < c ∧ st.lastCorrelation < c then
    Sum.inr { bestOffset := if st.bestCorrelation < c then (offset : ℤ) else st.bestOffset
              bestCorrelation := if st.bestCorrelation < c then c else st.bestCorrelation
              foundGoodCorrelation := true
              lastCorrelation := c }
  else if st.foundGoodCorrelation then
    Sum.inl (offset, st)
  else
    Sum.inr { st with lastCorrelation := c }

/-- The `autoCorrelate` offset loop, iterating `acStep` over
`offset, offset+1, ...` with `fuel` iterations remaining (the top-level call
uses `fuel = M`, `offset = 0`, covering offsets `0 .. M-1`). -/
def acLoop (buf : List ℚ) (M : ℕ) : ℕ → ℕ → ACState → (ℕ × ACState) ⊕ ACState
  | 0, _, st => Sum.inr st
  | fuel + 1, offset, st =>
    match acStep buf M offset st with
    | Sum.inl e => Sum.inl e
    | Sum.inr st1 => acLoop buf M fuel (offset + 1) st1

/-- audioHelpers.ts lines 29-76, `autoCorrelate`.  `SIZE = buf.length`,
`MAX_SAMPLES = ⌊SIZE / 2⌋`.  The silence gate `rms < 0.01` (line 44) is the
squared comparison `sumSq / SIZE < 1/10000` guarded by `0 < SIZE`: for an
empty buffer the source computes `rms = Math.sqrt (0/0) = NaN` and a NaN
comparison is false, so the gate is not taken (the function still ends up
returning `-1` through the final branch, with an empty loop).  The early
return of line 66 is `sampleRate / (bestOffset + shift)`; the fall-through of
lines 71-73 returns `sampleRate / bestOffset` when `0.01 < bestCorrelation`,
and `-1` (the no-pitch sentinel) otherwise. -/
def autoCorrelate (buf : List ℚ) (sampleRate : ℚ) : ℚ :=
  let SIZE := buf.length
  let M := SIZE / 2
  if 0 < SIZE ∧ sumSq buf / (SIZE : ℚ) < 1 / 10000 then -1
  else
    match acLoop buf M M 0 acInit with
    | Sum.inl (_, st) => sampleRate / acInterp buf M st.bestOffset
    | Sum.inr st =>
      if 1 / 100 < st.bestCorrelation then sampleRate / (st.bestOffset : ℚ)
      else -1

/-- JavaScript `Math.round` for the nonnegative-or-any rational inputs used
here: round half toward positive infinity. -/
def jsRound (q : ℚ) : ℤ := ⌊q + 1 / 2⌋

/-- Squared Euclidean distance between two RGB triples. -/
def distSq (a b : ℤ × ℤ × ℤ) : ℤ :=
  (a.1 - b.1) ^ 2 + (a.2.1 - b.2.1) ^ 2 + (a.2.2 - b.2.2) ^ 2

/-- audioHelpers.ts lines 82-115, `getColorForIntensity` (the cold-to-warm
variant: dark blue → light blue → green/cyan → yellow → red).  `none` models
the fully transparent `rgba(0,0,0,0)` returned for `value < 2`; `some`
carries the rounded `(r, g, b)` channels of the `rgb(...)` string. -/
def getColorForIntensity (value : ℚ) : Option (ℤ × ℤ × ℤ) :=
  if value < 2 then none
  else if value < 64 then
    let ratio := value / 64
    some (jsRound 0, jsRound (150 * ratio), jsRound (100 + 155 * ratio))
  else if value < 128 then
    let ratio := (value - 64) / 64
    some (jsRound 0, jsRound (150 + 105 * ratio), jsRound (255 - 55 * ratio))
  else if value < 192 then
    let ratio := (value - 128) / 64
    some (jsRound (255 * ratio), jsRound 255, jsRound 0)
  else
    let ratio := (value - 192) / 63
    some (jsRound 255, jsRound (255 - 255 * ratio), jsRound 0)

/-- audioHelpers.ts lines 203-232, the second `getColorForIntensity` variant
(white → yellow, then yellow-end → red).  `none` models the transparent
return for `value < 5`. -/
def getColorForIntensityV2 (value : ℚ) : Option (ℤ × ℤ × ℤ) :=
  let midPoint : ℚ := 150
  let highEnd : ℚ := 255
  if value < 5 then none
  else if value ≤ midPoint then
    let ratio := value / midPoint
    some (jsRound (255 - 5 * ratio), jsRound (255 - 51 * ratio),
      jsRound (255 - 234 * ratio))
  else
    let ratio := (value - midPoint) / (highEnd - midPoint)
    some (jsRound (250 - 11 * ratio), jsRound (204 - 136 * ratio),
      jsRound (21 + 47 * ratio))

/-- Boolean bound check used to state color-map continuity: if both
intensities map to opaque colors, their squared Euclidean distance is at most
`K`; a transparent endpoint makes the pair vacuously bounded. -/
def boundedStep (f : ℚ → Option (ℤ × ℤ × ℤ)) (i : ℕ) (K : ℤ) : Bool :=
  match f i, f (i + 1) with
  | some a, some b => decide (distSq a b ≤ K)
  | _, _ => true

/-! ## Spectrogram.tsx: temporal smoothing state and per-tick update -/

/-- Spectrogram.tsx line 29: `HISTORY_SIZE = 30`. -/
def HISTORY_SIZE : ℕ := 30

/-- The push-then-evict history update of Spectrogram.tsx lines 110-114:
`push` the new value, then `shift()` (drop the oldest element) when the
length exceeds `HISTORY_SIZE`. -/
def pushCap (x : ℚ) (l : List ℚ) : List ℚ :=
  let l1 := l ++ [x]
  if HISTORY_SIZE < l1.length then l1.drop 1 else l1

/-- `hzHistoryRef.current.filter (p => p > 0)` of Spectrogram.tsx
lines 124 and 137. -/
def validPitches (l : List ℚ) : List ℚ := l.filter (fun p => decide (0 < p))

/-- `reduce((a, b) => a + b, 0) / length`, the arithmetic mean used on
Spectrogram.tsx lines 120, 128 and 141. -/
def listMean (l : List ℚ) : ℚ := l.sum / (l.length : ℚ)

/-- The mutable refs and displayed state of the Spectrogram component that
the smoothing logic touches (Spectrogram.tsx lines 26-34): the two history
buffers, the frame counter, and the displayed `db`, `hz` (fast marker) and
`persistedHz` (persisted readout) values. -/
structure SmootherState where
  dbHistory : List ℚ
  hzHistory : List ℚ
  frameCount : ℕ
  db : ℚ
  hz : ℚ
  persistedHz : ℚ
deriving DecidableEq, Repr

/-- Initial component state: empty histories, `frameCount = 0`,
`db = -100`, `hz = 0`, `persistedHz = 0` (Spectrogram.tsx lines 26-34). -/
def initialState : SmootherState := ⟨[], [], 0, -100, 0, 0⟩

/-- The smoothing part of one `draw` tick (Spectrogram.tsx lines 105-146),
taking the instantaneous decibel and pitch values computed on lines 106-108
as inputs.  Lines 110-114 push into the histories (a non-positive pitch is
stored as `0`); line 116 increments the frame counter; lines 119-133 run on
every 5th frame and recompute `db` and the fast pitch marker `hz`
(filter the pitch history to positive entries, take the last 10 via
`slice(-10)`, and average them only when more than 3 remain); lines 136-146
run on every 30th frame and overwrite `persistedHz` with the mean of the
positive entries only when more than `HISTORY_SIZE / 3` of them exist.
The canvas-rendering part of `draw` (lines 148-191) touches none of these
fields and is out of scope of the claims. -/
def drawTick (currentDb currentHz : ℚ) (st : SmootherState) : SmootherState :=
  let dbH := pushCap currentDb st.dbHistory
  let hzH := pushCap (if 0 < currentHz then currentHz else 0) st.hzHistory
  let n := st.frameCount + 1
  let st1 : SmootherState :=
    { st with dbHistory := dbH, hzHistory := hzH, frameCount := n }
  let st2 : SmootherState :=
    if n % 5 = 0 then
      let valid := validPitches hzH
      let recent := valid.drop (valid.length - 10)
      { st1 with db := listMean dbH
                 hz := if 3 < recent.length then listMean recent else 0 }
    else st1
  if n % 30 = 0 then
    let valid := validPitches hzH
    if HISTORY_SIZE / 3 < valid.length then
      { st2 with persistedHz := listMean valid }
    else st2
  else st2

/-- Folds `drawTick` over a list of instantaneous pitch readings (one tick
per entry, with the instantaneous decibel value fixed at 0, which none of
the pitch claims depend on). -/
def runHz (l : List ℚ) (st : SmootherState) : SmootherState :=
  l.foldl (fun s h => drawTick 0 h s) st

/-! ## Spectrogram.tsx: note naming -/

/-- Spectrogram.tsx line 341: the chromatic note-name table
`["C", "C#", ..., "B"]`. -/
def noteStrings : List String :=
  "C" :: "C#" :: "D" :: "D#" :: "E" :: "F" ::
    "F#" :: "G" :: "G#" :: "A" :: "A#" :: "B" :: []

/-- Spectrogram.tsx lines 340-347, `getNoteFromFreq`, factored through the
integer `n0 = Math.round (12 * Math.log2 (freq / 440))` (the only
transcendental step; `isRound12Log2` below characterizes it exactly).
The source computes `n = n0 + 69`, `octave = Math.floor (n / 12) - 1` and
`noteIndex = n % 12` with the JavaScript truncating remainder (sign of the
dividend); a negative `noteIndex` makes `noteStrings[noteIndex]` an
out-of-bounds access yielding `undefined`, modelled by `none`. -/
def getNoteFromFreq (n0 : ℤ) : Option String :=
  let n : ℤ := n0 + 69
  let octave : ℤ := Int.fdiv n 12 - 1
  let noteIndex : ℤ := Int.tmod n 12
  if 0 ≤ noteIndex then
    some (noteStrings.getD noteIndex.toNat "" ++ toString octave)
  else none

/-- Exact characterization of `n = Math.round (12 * Math.log2 (f / 440))`
for `f > 0`: `Math.round x = n ↔ n - 1/2 ≤ x < n + 1/2` (JavaScript rounds
half toward positive infinity), and
`n - 1/2 ≤ 12 * log2 (f/440) < n + 1/2` is equivalent, raising `2` to the
`24`th-power form, to `2 ^ (2n - 1) ≤ (f/440)^24 < 2 ^ (2n + 1)`.  This is
decidable rational arithmetic. -/
def isRound12Log2 (f : ℚ) (n : ℤ) : Prop :=
  0 < f ∧ (2 : ℚ) ^ (2 * n - 1) ≤ (f / 440) ^ (24 : ℕ) ∧
    (f / 440) ^ (24 : ℕ) < (2 : ℚ) ^ (2 * n + 1)

instance (f : ℚ) (n : ℤ) : Decidable (isRound12Log2 f n) := by
  unfold isRound12Log2; infer_instance

/-! ## Definitions taken from the specification text (for refinement
comparisons), clearly separated from the source translations above. -/

/-- Modelled from the spec and claim C4 wording: take the most recent
`min(10, history length)` entries of the pitch history, THEN filter them to
strictly positive values; if more than 3 remain, display their mean,
otherwise 0.  (The source filters first and slices afterwards.) -/
def specFastPitch (hist : List ℚ) : ℚ :=
  let recent := hist.drop (hist.length - 10)
  let pos := validPitches recent
  if 3 < pos.length then listMean pos else 0

/-- The fast-pitch value the source actually computes on every 5th tick
(Spectrogram.tsx lines 124-132): filter the full pitch history to positive
entries, then keep the most recent `min(10, count)` of the filtered list. -/
def fastPitch (hist : List ℚ) : ℚ :=
  let valid := validPitches hist
  let recent := valid.drop (valid.length - 10)
  if 3 < recent.length then listMean recent else 0

/-- Modelled from the claim C7 wording: note name at index `n mod 12` in the
table starting at C (mathematical modulus, always in `[0, 12)`), octave
`⌊(n + 69) / 12⌋ - 1`, where `n = Math.round (12 * Math.log2 (f / 440))`. -/
def specNoteFromFreq (n0 : ℤ) : Option String :=
  some (noteStrings.getD (n0 % 12).toNat "" ++ toString (Int.fdiv (n0 + 69) 12 - 1))

/-- A fixed example buffer (a period-2 square wave of amplitude 1/2, eight
samples) on which `autoCorrelate` demonstrably takes the early-termination
parabolic-interpolation branch: the scan exits at offset 3 with
`bestOffset = 2`. -/
def demoBuf : List ℚ := [1/2, -1/2, 1/2, -1/2, 1/2, -1/2, 1/2, -1/2]

/-! ## Autocorrelation loop invariant -/

/-- Invariant of the `autoCorrelate` offset loop, holding before the
iteration that processes offset `o`.  Once `foundGoodCorrelation` has been
set, the eligible offsets seen so far form a contiguous strictly-rising run
ending at `o - 1`, which is also the recorded best offset; before that, the
best-tracking fields still hold their initial values. -/
def Inv (buf : List ℚ) (M : ℕ) (o : ℕ) (st : ACState) : Prop :=
  (st.foundGoodCorrelation = true →
    2 ≤ o ∧ st.bestOffset = (o : ℤ) - 1 ∧
    st.bestCorrelation = corrAt buf M (o - 1) ∧
    st.lastCorrelation = corrAt buf M (o - 1) ∧
    9 / 10 < corrAt buf M (o - 1) ∧
    corrAt buf M (o - 2) < corrAt buf M (o - 1)) ∧
  (st.foundGoodCorrelation = false →
    st.bestOffset = -1 ∧ st.bestCorrelation = 0 ∧
    st.lastCorrelation = (if o = 0 then 1 else corrAt buf M (o - 1)))

lemma diffSum_offset_zero (buf : List ℚ) : ∀ m : ℕ, diffSum buf 0 m = 0 := by
  intro m
  induction m with
  | zero => rfl
  | succ m ih => simp [diffSum, ih]

/-- At lag 0 every term `|buf[i] - buf[i]|` vanishes, so the correlation is
exactly 1 (this is exact in floating point as well). -/
lemma corrAt_zero (buf : List ℚ) (M : ℕ) : corrAt buf M 0 = 1 := by
  simp [corrAt, diffSum_offset_zero]

lemma Inv_init (buf : List ℚ) (M : ℕ) : Inv buf M 0 acInit := by
  constructor
  · intro h; simp [acInit] at h
  · intro _; simp [acInit]

lemma acStep_inr_inv {buf : List ℚ} {M o : ℕ} {st st1 : ACState}
    (h : Inv buf M o st) (hstep : acStep buf M o st = Sum.inr st1) :
    Inv buf M (o + 1) st1 := by
  simp only [acStep] at hstep
  by_cases hc : 9 / 10 < corrAt buf M o ∧ st.lastCorrelation < corrAt buf M o
  · rw [if_pos hc] at hstep
    have hupd : st.bestCorrelation < corrAt buf M o := by
      cases hf : st.foundGoodCorrelation with
      | true =>
        obtain ⟨-, -, hbc, hlc, -, -⟩ := h.1 hf
        rw [hbc, ← hlc]; exact hc.2
      | false =>
        obtain ⟨-, hbc, -⟩ := h.2 hf
        rw [hbc]; linarith [hc.1]
    have ho1 : 1 ≤ o := by
      by_contra ho
      have ho0 : o = 0 := by omega
      subst ho0
      cases hf : st.foundGoodCorrelation with
      | true => obtain ⟨h2, -⟩ := h.1 hf; omega
      | false =>
        obtain ⟨-, -, hlc⟩ := h.2 hf
        rw [corrAt_zero] at hc
        simp at hlc
        rw [hlc] at hc
        exact absurd hc.2 (lt_irrefl 1)
    have hprev : corrAt buf M (o - 1) < corrAt buf M o := by
      cases hf : st.foundGoodCorrelation with
      | true =>
        obtain ⟨-, -, -, hlc, -, -⟩ := h.1 hf
        rw [← hlc]; exact hc.2
      | false =>
        obtain ⟨-, -, hlc⟩ := h.2 hf
        have : o ≠ 0 := by omega
        rw [if_neg this] at hlc
        rw [← hlc]; exact hc.2
    rw [if_pos hupd, if_pos hupd] at hstep
    have hst1 : (⟨(o : ℤ), corrAt buf M o, true, corrAt buf M o⟩ : ACState) = st1 :=
      (Sum.inr.injEq _ _).mp hstep
    subst hst1
    constructor
    · intro _
      refine ⟨by omega, by push_cast; ring, ?_, ?_, ?_, ?_⟩
      · simp
      · simp
      · simpa using hc.1
      · simpa using hprev
    · intro hf; simp at hf
  · rw [if_neg hc] at hstep
    cases hf : st.foundGoodCorrelation with
    | true => rw [hf] at hstep; simp at hstep
    | false =>
      rw [hf] at hstep
      simp only [Bool.false_eq_true, if_false, Sum.inr.injEq] at hstep
      subst hstep
      constructor
      · intro hcontra
        simp [hf] at hcontra
      · intro _
        obtain ⟨hb, hbc, -⟩ := h.2 hf
        refine ⟨hb, hbc, ?_⟩
        simp

lemma acStep_inl_spec {buf : List ℚ} {M o : ℕ} {st : ACState} {oe : ℕ} {ste : ACState}
    (h : Inv buf M o st) (hstep : acStep buf M o st = Sum.inl (oe, ste)) :
    oe = o ∧ ste = st ∧ 2 ≤ o ∧ st.bestOffset = (o : ℤ) - 1 ∧
    0 < acDenom buf M st.bestOffset ∧
    (1 / 2 : ℚ) ≤ acInterp buf M st.bestOffset := by
  simp only [acStep] at hstep
  by_cases hc : 9 / 10 < corrAt buf M o ∧ st.lastCorrelation < corrAt buf M o
  · rw [if_pos hc] at hstep; simp at hstep
  · rw [if_neg hc] at hstep
    cases hf : st.foundGoodCorrelation with
    | false => rw [hf] at hstep; simp at hstep
    | true =>
      rw [hf] at hstep
      simp only [if_true, Sum.inl.injEq, Prod.mk.injEq] at hstep
      obtain ⟨hoe, hste⟩ := hstep
      obtain ⟨h2, hb, hbc, hlc, hm, ha⟩ := h.1 hf
      have hcle : corrAt buf M o ≤ corrAt buf M (o - 1) := by
        rcases not_and_or.mp hc with h1 | h1
        · push_neg at h1; linarith
        · push_neg at h1; rw [← hlc]; exact h1
      -- rewrite the three signed-index correlations to their ℕ counterparts
      have e0 : corrAtZ buf M st.bestOffset = corrAt buf M (o - 1) := by
        rw [hb]; unfold corrAtZ
        rw [if_pos (by omega : (0 : ℤ) ≤ (o : ℤ) - 1)]
        congr 1; omega
      have e1 : corrAtZ buf M (st.bestOffset + 1) = corrAt buf M o := by
        rw [hb]; unfold corrAtZ
        rw [if_pos (by omega : (0 : ℤ) ≤ (o : ℤ) - 1 + 1)]
        congr 1; omega
      have e2 : corrAtZ buf M (st.bestOffset - 1) = corrAt buf M (o - 2) := by
        rw [hb]; unfold corrAtZ
        rw [if_pos (by omega : (0 : ℤ) ≤ (o : ℤ) - 1 - 1)]
        congr 1; omega
      have hDval : acDenom buf M st.bestOffset =
          2 * (2 * corrAt buf M (o - 1) - corrAt buf M o - corrAt buf M (o - 2)) := by
        unfold acDenom
        rw [e0, e1, e2]
      have hD : 0 < acDenom buf M st.bestOffset := by
        rw [hDval]; linarith
      refine ⟨hoe.symm, hste.symm, h2, hb, hD, ?_⟩
      have hSval : acShift buf M st.bestOffset =
          (corrAt buf M o - corrAt buf M (o - 2)) / acDenom buf M st.bestOffset := by
        unfold acShift acDenom
        rw [e0, e1, e2]
      have hshift : -(1 / 2 : ℚ) ≤ acShift buf M st.bestOffset := by
        rw [hSval, le_div_iff₀ hD, hDval]
        linarith
      have hcast : ((st.bestOffset : ℤ) : ℚ) = (o : ℚ) - 1 := by
        rw [hb]; push_cast; ring
      have ho2 : (2 : ℚ) ≤ (o : ℚ) := by exact_mod_cast h2
      unfold acInterp
      rw [hcast]
      linarith

lemma acLoop_spec {buf : List ℚ} {M : ℕ} :
    ∀ (fuel o : ℕ) (st : ACState), o + fuel = M → Inv buf M o st →
    (∀ oe ste, acLoop buf M fuel o st = Sum.inl (oe, ste) →
      2 ≤ oe ∧ oe < M ∧ ste.bestOffset = (oe : ℤ) - 1 ∧
      0 < acDenom buf M ste.bestOffset ∧
      (1 / 2 : ℚ) ≤ acInterp buf M ste.bestOffset) ∧
    (∀ stf, acLoop buf M fuel o st = Sum.inr stf → Inv buf M M stf) := by
  intro fuel
  induction fuel with
  | zero =>
    intro o st ho hinv
    constructor
    · intro oe ste hl; simp [acLoop] at hl
    · intro stf hr
      simp only [acLoop, Sum.inr.injEq] at hr
      subst hr
      have : o = M := by omega
      subst this
      exact hinv
  | succ fuel ih =>
    intro o st ho hinv
    cases hstep : acStep buf M o st with
    | inl e =>
      obtain ⟨oe0, ste0⟩ := e
      obtain ⟨hoe, hste, h2, hb, hD, hI⟩ := acStep_inl_spec hinv hstep
      subst hoe; subst hste
      constructor
      · intro oe ste hl
        simp only [acLoop, hstep] at hl
        obtain ⟨h1, h2'⟩ := Prod.mk.injEq .. ▸ (Sum.inl.injEq _ _).mp hl
        subst h1; subst h2'
        exact ⟨h2, by omega, hb, hD, hI⟩
      · intro stf hr
        simp only [acLoop, hstep] at hr
        exact absurd hr (by simp)
    | inr st1 =>
      have hinv1 : Inv buf M (o + 1) st1 := acStep_inr_inv hinv hstep
      have ho1 : (o + 1) + fuel = M := by omega
      have := ih (o + 1) st1 ho1 hinv1
      constructor
      · intro oe ste hl
        simp only [acLoop, hstep] at hl
        exact this.1 oe ste hl
      · intro stf hr
        simp only [acLoop, hstep] at hr
        exact this.2 stf hr

/-! ## Claim C1 -/

/-- C1: `autoCorrelate` never produces a non-finite value.  In the exact
arithmetic of the model, finiteness of the returned value amounts to every
division on the returned path having a nonzero denominator.  Whenever the
early-termination branch fires (from the initial loop state, for any buffer),
the parabolic-interpolation denominator
`2 * (2*corr[best] - corr[best+1] - corr[best-1])` is strictly positive (so
the first disjunct of the claim holds: no fallback guard exists or is
needed), and `bestOffset + shift` is at least `1/2`, hence nonzero; on the
no-early-exit path, whenever the `bestCorrelation > 0.01` fallback divides by
`bestOffset`, that offset is at least 1.  All other returns are the constant
`-1`, so the returned value is always finite. -/
theorem autoCorrelate_parabolic_finite (buf : List ℚ) :
    (∀ oe ste, acLoop buf (buf.length / 2) (buf.length / 2) 0 acInit = Sum.inl (oe, ste) →
      0 < acDenom buf (buf.length / 2) ste.bestOffset ∧
      (1 / 2 : ℚ) ≤ acInterp buf (buf.length / 2) ste.bestOffset) ∧
    (∀ stf, acLoop buf (buf.length / 2) (buf.length / 2) 0 acInit = Sum.inr stf →
      1 / 100 < stf.bestCorrelation → 1 ≤ stf.bestOffset) := by
  have hspec := @acLoop_spec buf (buf.length / 2)
    (buf.length / 2) 0 acInit (by omega) (Inv_init buf (buf.length / 2))
  constructor
  · intro oe ste hl
    obtain ⟨-, -, -, hD, hI⟩ := hspec.1 oe ste hl
    exact ⟨hD, hI⟩
  · intro stf hr hbc
    have hinv := hspec.2 stf hr
    cases hf : stf.foundGoodCorrelation with
    | true =>
      obtain ⟨h2, hb, -⟩ := hinv.1 hf
      omega
    | false =>
      obtain ⟨-, hbc0, -⟩ := hinv.2 hf
      rw [hbc0] at hbc
      norm_num at hbc

/-- Witness for C1: on the concrete buffer `demoBuf` the scan exits early at
offset 3 with `bestOffset = 2`, and the interpolation denominator is
positive and interpolated lag at least `1/2` there. -/
theorem autoCorrelate_parabolic_finite_check :
    0 < acDenom demoBuf (demoBuf.length / 2) ((⟨2, 1, true, 1⟩ : ACState)).bestOffset ∧
    (1 / 2 : ℚ) ≤ acInterp demoBuf (demoBuf.length / 2) ((⟨2, 1, true, 1⟩ : ACState)).bestOffset :=
  (autoCorrelate_parabolic_finite demoBuf).1 3 ⟨2, 1, true, 1⟩ (by with_unfolding_all decide)

/-! ## Claim C2 -/

/-- C2: whenever the early-termination (parabolic-interpolation) branch
executes, `bestOffset ≥ 1` and `bestOffset + 1 < MAX_SAMPLES`, so the reads
`correlations[bestOffset - 1]` and `correlations[bestOffset + 1]` are in
bounds; moreover the correlation at offset 0 equals exactly 1, which is why
offset 0 (whose eligibility test demands strictly exceeding
`lastCorrelation`, initialized to 1) is never recorded as `bestOffset`. -/
theorem autoCorrelate_bestOffset_in_bounds (buf : List ℚ) :
    (∀ oe ste, acLoop buf (buf.length / 2) (buf.length / 2) 0 acInit = Sum.inl (oe, ste) →
      1 ≤ ste.bestOffset ∧ ste.bestOffset + 1 < ((buf.length / 2 : ℕ) : ℤ)) ∧
    (0 < buf.length / 2 → corrAt buf (buf.length / 2) 0 = 1) := by
  have hspec := @acLoop_spec buf (buf.length / 2)
    (buf.length / 2) 0 acInit (by omega) (Inv_init buf (buf.length / 2))
  constructor
  · intro oe ste hl
    obtain ⟨h2, hoM, hb, -, -⟩ := hspec.1 oe ste hl
    omega
  · intro _
    exact corrAt_zero buf (buf.length / 2)

/-- Witness for C2: on `demoBuf` the early exit happens at offset 3 with
`bestOffset = 2`, which satisfies `1 ≤ 2` and `2 + 1 < 4 = MAX_SAMPLES`; and
the lag-0 correlation of `demoBuf` is exactly 1. -/
theorem autoCorrelate_bestOffset_in_bounds_check :
    (1 ≤ ((⟨2, 1, true, 1⟩ : ACState)).bestOffset ∧
      ((⟨2, 1, true, 1⟩ : ACState)).bestOffset + 1 < ((demoBuf.length / 2 : ℕ) : ℤ)) ∧
    corrAt demoBuf (demoBuf.length / 2) 0 = 1 :=
  ⟨(autoCorrelate_bestOffset_in_bounds demoBuf).1 3 ⟨2, 1, true, 1⟩
      (by with_unfolding_all decide),
   (autoCorrelate_bestOffset_in_bounds demoBuf).2 (by decide)⟩

/-! ## Claim C10 -/

/-- C10: for every sample buffer and every positive sample rate,
`autoCorrelate` returns either exactly the sentinel `-1` or a strictly
positive frequency; it never returns `0` or any other non-positive value, so
the display layer's test `p > 0` exactly separates valid detections from the
no-pitch case. -/
theorem autoCorrelate_sentinel_or_positive (buf : List ℚ) (sr : ℚ) (hsr : 0 < sr) :
    autoCorrelate buf sr = -1 ∨ 0 < autoCorrelate buf sr := by
  have hspec := @acLoop_spec buf (buf.length / 2)
    (buf.length / 2) 0 acInit (by omega) (Inv_init buf (buf.length / 2))
  by_cases hg : 0 < buf.length ∧ sumSq buf / (buf.length : ℚ) < 1 / 10000
  · left
    simp only [autoCorrelate]
    rw [if_pos hg]
  · cases hloop : acLoop buf (buf.length / 2) (buf.length / 2) 0 acInit with
    | inl e =>
      obtain ⟨oe, ste⟩ := e
      have hval : autoCorrelate buf sr =
          sr / acInterp buf (buf.length / 2) ste.bestOffset := by
        simp only [autoCorrelate]
        rw [if_neg hg, hloop]
      obtain ⟨-, -, -, -, hI⟩ := hspec.1 oe ste hloop
      rw [hval]
      exact Or.inr (div_pos hsr (by linarith))
    | inr stf =>
      have hinv := hspec.2 stf hloop
      have hval : autoCorrelate buf sr =
          (if 1 / 100 < stf.bestCorrelation then sr / ((stf.bestOffset : ℤ) : ℚ)
           else -1) := by
        simp only [autoCorrelate]
        rw [if_neg hg, hloop]
      rw [hval]
      by_cases hbc : 1 / 100 < stf.bestCorrelation
      · rw [if_pos hbc]
        cases hf : stf.foundGoodCorrelation with
        | true =>
          obtain ⟨h2, hb, -⟩ := hinv.1 hf
          refine Or.inr (div_pos hsr ?_)
          rw [hb]
          have hz : (0 : ℤ) < ((buf.length / 2 : ℕ) : ℤ) - 1 := by omega
          exact_mod_cast hz
        | false =>
          obtain ⟨-, hbc0, -⟩ := hinv.2 hf
          rw [hbc0] at hbc
          norm_num at hbc
      · rw [if_neg hbc]; exact Or.inl rfl

/-- Witness for C10 at the concrete buffer `demoBuf` and sample rate 441
(the detector returns 441/2 there, which is positive). -/
theorem autoCorrelate_sentinel_or_positive_check :
    autoCorrelate demoBuf 441 = -1 ∨ 0 < autoCorrelate demoBuf 441 :=
  autoCorrelate_sentinel_or_positive demoBuf 441 (by norm_num)

/-! ## Claim C6 -/

/-- C6 (refuting theorem): on an empty sample array the loudness pipeline
does NOT yield -100 as the claim demands: `calculateRMS` divides 0 by 0,
yielding NaN (`none`), and `amplitudeToDecibels` propagates it (in
JavaScript `NaN <= 0` is false, `20 * log10 NaN = NaN` and
`Math.max(-100, NaN) = NaN`), so the displayed decibel value is non-finite
instead of -100.  The pitch half of the claim does hold: `autoCorrelate`
returns the sentinel -1 for an empty buffer (through the final fall-through,
not through the silence gate, whose NaN comparison is false). -/
theorem empty_buffer_behavior (sqrt log10 : ℚ → ℚ) (sr : ℚ) :
    amplitudeToDecibels log10 (calculateRMS sqrt []) = none ∧
    amplitudeToDecibels log10 (calculateRMS sqrt []) ≠ some (-100) ∧
    autoCorrelate ([] : List ℚ) sr = -1 := by
  refine ⟨rfl, by simp [calculateRMS, amplitudeToDecibels], ?_⟩
  have hval : autoCorrelate ([] : List ℚ) sr =
      (if (1 / 100 : ℚ) < acInit.bestCorrelation
       then sr / ((acInit.bestOffset : ℤ) : ℚ) else -1) := by
    simp only [autoCorrelate]
    rw [if_neg (by simp)]
    rfl
  rw [hval, if_neg (by norm_num [acInit])]

/-! ## Claim C8 -/

/-- C8: for every all-zero, non-empty sample array the computed RMS is 0, so
`amplitudeToDecibels` takes its `rms <= 0` branch and returns exactly -100,
and `autoCorrelate` returns the no-pitch sentinel -1 because the mean square
0 is below the squared silence gate `0.01²`. -/
theorem allZero_silence (sqrt log10 : ℚ → ℚ) (buf : List ℚ) (sr : ℚ)
    (hne : buf ≠ []) (hzero : ∀ x ∈ buf, x = 0) (hs : sqrt 0 = 0) :
    amplitudeToDecibels log10 (calculateRMS sqrt buf) = some (-100) ∧
    autoCorrelate buf sr = -1 := by
  have hsum : sumSq buf = 0 := by
    unfold sumSq
    apply List.sum_eq_zero
    intro x hx
    simp only [List.mem_map] at hx
    obtain ⟨a, ha, rfl⟩ := hx
    rw [hzero a ha]; ring
  have hlen : buf.length ≠ 0 := fun h => hne (List.length_eq_zero.mp h)
  constructor
  · unfold calculateRMS
    rw [if_neg hlen, hsum, zero_div, hs]
    rw [show amplitudeToDecibels log10 (some 0) =
        (if (0 : ℚ) ≤ 0 then some (-100) else some (max (-100) (20 * log10 0)))
      from rfl]
    rw [if_pos le_rfl]
  · simp only [autoCorrelate]
    rw [if_pos ⟨Nat.pos_of_ne_zero hlen, by rw [hsum, zero_div]; norm_num⟩]

/-- Witness for C8 at the concrete all-zero buffer `[0]` (with the real
square root instantiated by any function sending 0 to 0). -/
theorem allZero_silence_check :
    amplitudeToDecibels id (calculateRMS id [0]) = some (-100) ∧
    autoCorrelate [0] 44100 = -1 :=
  allZero_silence id id [0] 44100 (by simp) (by simp) rfl

/-! ## History-buffer helper lemmas (Spectrogram smoothing) -/

lemma pushCap_of_le {x : ℚ} {l : List ℚ} (h : l.length ≤ 30) :
    pushCap x l = l.drop (l.length + 1 - 30) ++ [x] := by
  unfold pushCap HISTORY_SIZE
  simp only [List.length_append, List.length_singleton]
  by_cases h30 : l.length = 30
  · rw [if_pos (by omega)]
    have h1 : l.length + 1 - 30 = 1 := by omega
    rw [h1, List.drop_append_of_le_length (by omega)]
  · rw [if_neg (by omega)]
    have h0 : l.length + 1 - 30 = 0 := by omega
    rw [h0, List.drop_zero]

lemma pushCap_length {x : ℚ} {l : List ℚ} (h : l.length ≤ 30) :
    (pushCap x l).length ≤ 30 := by
  rw [pushCap_of_le h]
  simp only [List.length_append, List.length_drop, List.length_singleton]
  omega

lemma pushCap_mem {x y : ℚ} {l : List ℚ} (hy : y ∈ pushCap x l) : y ∈ l ∨ y = x := by
  have hy2 : y ∈ l ++ [x] := by
    unfold pushCap at hy
    simp only at hy
    split_ifs at hy with h
    · exact List.mem_of_mem_drop hy
    · exact hy
  rcases List.mem_append.mp hy2 with h | h
  · exact Or.inl h
  · exact Or.inr (List.mem_singleton.mp h)

lemma pushCap_full {x : ℚ} {l : List ℚ} (h : l.length = 30) :
    pushCap x l = l.tail ++ [x] := by
  rw [pushCap_of_le (le_of_eq h), h]
  rw [show (30 + 1 - 30 : ℕ) = 1 from rfl, List.drop_one]

lemma drawTick_dbHistory (cdb chz : ℚ) (st : SmootherState) :
    (drawTick cdb chz st).dbHistory = pushCap cdb st.dbHistory := by
  simp only [drawTick]
  split_ifs <;> rfl

lemma drawTick_hzHistory (cdb chz : ℚ) (st : SmootherState) :
    (drawTick cdb chz st).hzHistory =
      pushCap (if 0 < chz then chz else 0) st.hzHistory := by
  simp only [drawTick]
  split_ifs <;> rfl

lemma drawTick_frameCount (cdb chz : ℚ) (st : SmootherState) :
    (drawTick cdb chz st).frameCount = st.frameCount + 1 := by
  simp only [drawTick]
  split_ifs <;> rfl

lemma drawTick_persistedHz_not30 (cdb chz : ℚ) (st : SmootherState)
    (h : (st.frameCount + 1) % 30 ≠ 0) :
    (drawTick cdb chz st).persistedHz = st.persistedHz := by
  simp only [drawTick]
  split_ifs <;> first | rfl | exact absurd ‹(st.frameCount + 1) % 30 = 0› h

lemma drawTick_persistedHz_30 (cdb chz : ℚ) (st : SmootherState)
    (h : (st.frameCount + 1) % 30 = 0) :
    (drawTick cdb chz st).persistedHz =
      (if HISTORY_SIZE / 3 <
          (validPitches (pushCap (if 0 < chz then chz else 0) st.hzHistory)).length
       then listMean (validPitches (pushCap (if 0 < chz then chz else 0) st.hzHistory))
       else st.persistedHz) := by
  simp only [drawTick]
  split_ifs <;> rfl

lemma drawTick_hz_5 (cdb chz : ℚ) (st : SmootherState)
    (h : (st.frameCount + 1) % 5 = 0) :
    (drawTick cdb chz st).hz =
      fastPitch (pushCap (if 0 < chz then chz else 0) st.hzHistory) := by
  simp only [drawTick, fastPitch]
  split_ifs <;> rfl

lemma pushCap_zero_iter_mem :
    ∀ (k : ℕ) (l : List ℚ), l.length ≤ 30 →
    ((pushCap (0 : ℚ))^[k] l).length ≤ 30 ∧
    ∀ x ∈ (pushCap (0 : ℚ))^[k] l, x ∈ l.drop (l.length + k - 30) ∨ x = 0 := by
  intro k
  induction k with
  | zero =>
    intro l hl
    refine ⟨hl, ?_⟩
    intro x hx
    have h0 : l.length + 0 - 30 = 0 := by omega
    rw [h0, List.drop_zero]
    exact Or.inl hx
  | succ k ih =>
    intro l hl
    rw [Function.iterate_succ_apply]
    have hl2 : (pushCap 0 l).length ≤ 30 := pushCap_length hl
    obtain ⟨ihlen, ihmem⟩ := ih (pushCap 0 l) hl2
    refine ⟨ihlen, ?_⟩
    intro x hx
    rcases ihmem x hx with hmem | h0
    · rw [pushCap_of_le hl, List.drop_append_eq_append_drop] at hmem
      rcases List.mem_append.mp hmem with h1 | h1
      · rw [List.drop_drop] at h1
        have hidx : l.length + 1 - 30 +
            ((List.drop (l.length + 1 - 30) l ++ [(0 : ℚ)]).length + k - 30) =
            l.length + (k + 1) - 30 := by
          simp only [List.length_append, List.length_drop, List.length_singleton]
          omega
        rw [hidx] at h1
        exact Or.inl h1
      · right
        have hx0 : x ∈ [(0 : ℚ)] := List.mem_of_mem_drop h1
        simpa using hx0
    · exact Or.inr h0

lemma validPitches_iter30 {l : List ℚ} (hl : l.length ≤ 30) :
    validPitches ((pushCap (0 : ℚ))^[30] l) = [] := by
  obtain ⟨-, hmem⟩ := pushCap_zero_iter_mem 30 l hl
  unfold validPitches
  rw [List.filter_eq_nil_iff]
  intro x hx
  rcases hmem x hx with h1 | h1
  · have : l.length + 30 - 30 = l.length := by omega
    rw [this, List.drop_length] at h1
    exact absurd h1 (List.not_mem_nil x)
  · subst h1; simp

/-- After any number of ticks a run of silent ticks (instantaneous pitch
`-1`, stored as `0`) starting right after a 30th tick leaves `persistedHz`
untouched for 30 consecutive ticks: the only multiple-of-30 tick inside the
run happens when the whole history has been overwritten by zeros. -/
lemma silent_run (cdb : ℚ) (st : SmootherState) (hfc : st.frameCount % 30 = 0)
    (hlen : st.hzHistory.length ≤ 30) :
    ∀ j, j ≤ 30 →
      ((drawTick cdb (-1))^[j] st).persistedHz = st.persistedHz ∧
      ((drawTick cdb (-1))^[j] st).hzHistory = (pushCap (0 : ℚ))^[j] st.hzHistory ∧
      ((drawTick cdb (-1))^[j] st).frameCount = st.frameCount + j := by
  intro j
  induction j with
  | zero => intro _; exact ⟨rfl, rfl, rfl⟩
  | succ j ih =>
    intro hj
    obtain ⟨ihp, ihh, ihf⟩ := ih (by omega)
    rw [Function.iterate_succ_apply', Function.iterate_succ_apply']
    refine ⟨?_, ?_, ?_⟩
    · by_cases h30 : j + 1 = 30
      · have hfc2 : (((drawTick cdb (-1))^[j] st).frameCount + 1) % 30 = 0 := by
          rw [ihf]; omega
        rw [drawTick_persistedHz_30 _ _ _ hfc2]
        have hhz : pushCap (if 0 < (-1 : ℚ) then (-1 : ℚ) else 0)
            ((drawTick cdb (-1))^[j] st).hzHistory =
            (pushCap (0 : ℚ))^[30] st.hzHistory := by
          rw [if_neg (by norm_num), ihh, ← h30, Function.iterate_succ_apply']
        rw [hhz, validPitches_iter30 hlen]
        rw [if_neg (by simp [HISTORY_SIZE])]
        exact ihp
      · have hfc2 : (((drawTick cdb (-1))^[j] st).frameCount + 1) % 30 ≠ 0 := by
          rw [ihf]; omega
        rw [drawTick_persistedHz_not30 _ _ _ hfc2]
        exact ihp
    · rw [drawTick_hzHistory, if_neg (by norm_num), ihh]
    · rw [drawTick_frameCount, ihf]
      omega

/-! ## Claim C3 -/

set_option maxRecDepth 100000 in
/-- C3 counterexample: a run of 30 consecutive silent ticks during which the
persisted pitch value CHANGES.  From the initial state, 30 voiced ticks at
150 Hz set `persistedHz = 150` on tick 30; 26 further voiced ticks at 200 Hz
leave it at 150 (no tick number divisible by 30 occurs); then 30 consecutive
silent ticks (instantaneous pitch -1) follow, and on tick 60 — inside the
silent run — the history still holds 26 positive 200 Hz entries, so the
persisted value is overwritten with their mean 200.  Hence "feeding H
consecutive silent ticks leaves the persisted value unchanged" fails as
stated. -/
theorem persistedHz_silent_change_example :
    (runHz (List.replicate 30 150 ++ List.replicate 26 200) initialState).persistedHz
      = 150 ∧
    (runHz (List.replicate 30 (-1))
        (runHz (List.replicate 30 150 ++ List.replicate 26 200)
          initialState)).persistedHz = 200 ∧
    (150 : ℚ) ≠ 200 := by
  refine ⟨?_, ?_, by norm_num⟩ <;> with_unfolding_all decide

/-- C3 (amended): on every 30th tick, if the count of strictly positive
entries in the (updated) pitch history exceeds `H/3 = 10`, the persisted
value is overwritten with their mean, otherwise it is left unchanged; on
every tick that is not a multiple of 30 the persisted value is unchanged;
and a run of `H = 30` consecutive silent ticks that starts immediately after
a multiple-of-30 tick (the alignment under which the persisted value was
just set) leaves the persisted value unchanged — without that alignment an
intermediate 30th tick may still overwrite it with the mean of stale voiced
entries, as the counterexample shows. -/
theorem persistedHz_update_policy :
    (∀ (st : SmootherState) (cdb chz : ℚ), (st.frameCount + 1) % 30 ≠ 0 →
      (drawTick cdb chz st).persistedHz = st.persistedHz) ∧
    (∀ (st : SmootherState) (cdb chz : ℚ), (st.frameCount + 1) % 30 = 0 →
      (drawTick cdb chz st).persistedHz =
        (if HISTORY_SIZE / 3 <
            (validPitches (pushCap (if 0 < chz then chz else 0) st.hzHistory)).length
         then listMean (validPitches (pushCap (if 0 < chz then chz else 0) st.hzHistory))
         else st.persistedHz)) ∧
    (∀ (st : SmootherState) (cdb : ℚ), st.frameCount % 30 = 0 →
      st.hzHistory.length ≤ 30 →
      ((drawTick cdb (-1))^[30] st).persistedHz = st.persistedHz) :=
  ⟨fun st cdb chz h => drawTick_persistedHz_not30 cdb chz st h,
   fun st cdb chz h => drawTick_persistedHz_30 cdb chz st h,
   fun st cdb h1 h2 => (silent_run cdb st h1 h2 30 le_rfl).1⟩

/-- Witness for C3 (amended) at concrete states: tick 1 is not a multiple of
30 and keeps the persisted value; a tick arriving at frame count 30 applies
the gated overwrite rule; 30 silent ticks from the initial state (frame
count 0, a multiple of 30) keep the persisted value. -/
theorem persistedHz_update_policy_check :
    (drawTick 0 5 initialState).persistedHz = initialState.persistedHz ∧
    (drawTick 0 5 (⟨[], [], 29, -100, 0, 0⟩ : SmootherState)).persistedHz =
      (if HISTORY_SIZE / 3 <
          (validPitches (pushCap (if (0 : ℚ) < 5 then 5 else 0) ([] : List ℚ))).length
       then listMean (validPitches (pushCap (if (0 : ℚ) < 5 then 5 else 0) ([] : List ℚ)))
       else (⟨[], [], 29, -100, 0, 0⟩ : SmootherState).persistedHz) ∧
    ((drawTick 0 (-1))^[30] initialState).persistedHz = initialState.persistedHz :=
  ⟨persistedHz_update_policy.1 initialState 0 5 (by decide),
   persistedHz_update_policy.2.1 ⟨[], [], 29, -100, 0, 0⟩ 0 5 (by decide),
   persistedHz_update_policy.2.2 initialState 0 (by decide) (by decide)⟩

/-! ## Claim C4 -/

set_option maxRecDepth 100000 in
/-- C4 counterexample: the claim (and spec) order the operations as "take
the most recent min(10, length) entries, then filter to positive values".
The code filters first and then takes the last 10 of the filtered list.
After 20 voiced ticks at 100 Hz followed by 10 silent ticks (tick 30 is a
5th tick), the code displays 100 (the last 10 positive entries), while the
claim's formula yields 0 (the 10 most recent raw entries are all zero). -/
theorem fastPitch_order_example :
    (runHz (List.replicate 20 100 ++ List.replicate 10 (-1)) initialState).hz = 100 ∧
    specFastPitch
      (runHz (List.replicate 20 100 ++ List.replicate 10 (-1))
        initialState).hzHistory = 0 ∧
    (100 : ℚ) ≠ 0 := by
  refine ⟨?_, ?_, by norm_num⟩ <;> with_unfolding_all decide

/-- C4 (amended): on every 5th tick, the fast pitch display value is
computed by filtering the full (updated) pitch history to strictly positive
values, THEN taking the most recent `min(10, count)` entries of the filtered
list; if more than 3 remain, their arithmetic mean is displayed, otherwise
0. -/
theorem fastPitch_formula (st : SmootherState) (cdb chz : ℚ)
    (h : (st.frameCount + 1) % 5 = 0) :
    (drawTick cdb chz st).hz =
      fastPitch (pushCap (if 0 < chz then chz else 0) st.hzHistory) :=
  drawTick_hz_5 cdb chz st h

/-- Witness for C4 (amended) at a concrete state whose next tick number is 5. -/
theorem fastPitch_formula_check :
    (drawTick 0 7 (⟨[], [], 4, -100, 0, 0⟩ : SmootherState)).hz =
      fastPitch (pushCap (if (0 : ℚ) < 7 then 7 else 0) ([] : List ℚ)) :=
  fastPitch_formula ⟨[], [], 4, -100, 0, 0⟩ 0 7 (by decide)

/-! ## Claim C9 -/

/-- C9: under every tick's push-then-evict update, both history buffers stay
at length at most `H = 30`; pushing onto a full buffer evicts exactly the
oldest entry (the result is `tail ++ [new]`); and every entry stored in the
pitch history is nonnegative, because a non-positive instantaneous pitch
(including the -1 sentinel) is stored as 0. -/
theorem history_invariants (st : SmootherState) (cdb chz : ℚ)
    (hdb : st.dbHistory.length ≤ 30) (hhz : st.hzHistory.length ≤ 30)
    (hpos : ∀ x ∈ st.hzHistory, 0 ≤ x) :
    (drawTick cdb chz st).dbHistory.length ≤ 30 ∧
    (drawTick cdb chz st).hzHistory.length ≤ 30 ∧
    (∀ x ∈ (drawTick cdb chz st).hzHistory, 0 ≤ x) ∧
    (st.hzHistory.length = 30 →
      (drawTick cdb chz st).hzHistory =
        st.hzHistory.tail ++ [if 0 < chz then chz else 0]) := by
  refine ⟨?_, ?_, ?_, ?_⟩
  · rw [drawTick_dbHistory]; exact pushCap_length hdb
  · rw [drawTick_hzHistory]; exact pushCap_length hhz
  · rw [drawTick_hzHistory]
    intro x hx
    rcases pushCap_mem hx with h | h
    · exact hpos x h
    · subst h
      split_ifs with hc
      · exact le_of_lt hc
      · exact le_rfl
  · intro h30
    rw [drawTick_hzHistory]
    exact pushCap_full h30

/-- Witness for C9 at the initial state with a voiced tick. -/
theorem history_invariants_check :
    (drawTick (-50) 7 initialState).dbHistory.length ≤ 30 ∧
    (drawTick (-50) 7 initialState).hzHistory.length ≤ 30 ∧
    (∀ x ∈ (drawTick (-50) 7 initialState).hzHistory, 0 ≤ x) ∧
    (initialState.hzHistory.length = 30 →
      (drawTick (-50) 7 initialState).hzHistory =
        initialState.hzHistory.tail ++ [if (0 : ℚ) < 7 then 7 else 0]) :=
  history_invariants initialState (-50) 7 (by decide) (by decide) (by simp [initialState])

/-! ## Claim C5 -/

/-- C5 counterexample: the cold-to-warm color mapper (audioHelpers.ts
lines 82-115) is discontinuous at the 127 → 128 band boundary: intensity 127
maps to `(0, 253, 201)` but 128 maps to `(0, 255, 0)` — the blue channel
drops by 201, giving squared Euclidean distance 40405, while the per-step
slope of the piecewise-linear ramps bounds every other adjacent pair by a
squared distance of 25.  Both intensities are opaque, so the claim's bounded
step fails as stated. -/
theorem colorMap_jump_at_128 :
    getColorForIntensity 127 = some (0, 253, 201) ∧
    getColorForIntensity 128 = some (0, 255, 0) ∧
    distSq (0, 253, 201) (0, 255, 0) = 40405 ∧ ¬((40405 : ℤ) ≤ 25) := by
  refine ⟨?_, ?_, ?_, by norm_num⟩ <;> with_unfolding_all decide

set_option maxRecDepth 100000 in
/-- C5 (amended): intensity 0 — and every intensity below the silence
threshold (2 for the cold-to-warm variant, 5 for the white-to-red variant) —
maps to the fully transparent color; the white-to-red variant
(lines 203-232) is continuous, with adjacent opaque integer intensities at
squared Euclidean distance at most 12; the cold-to-warm variant
(lines 82-115) satisfies the analogous bound 25 at every adjacent pair of
opaque intensities in [0, 255] EXCEPT the pair 127 → 128, where the
counterexample exhibits a jump of squared distance 40405. -/
theorem colorMap_continuity :
    (∀ v : ℚ, v < 2 → getColorForIntensity v = none) ∧
    (∀ v : ℚ, v < 5 → getColorForIntensityV2 v = none) ∧
    (∀ i : ℕ, i < 255 → boundedStep getColorForIntensityV2 i 12 = true) ∧
    (∀ i : ℕ, i < 255 → i ≠ 127 → boundedStep getColorForIntensity i 25 = true) := by
  refine ⟨?_, ?_, ?_, ?_⟩
  · intro v hv
    unfold getColorForIntensity
    rw [if_pos hv]
  · intro v hv
    simp only [getColorForIntensityV2]
    rw [if_pos hv]
  · with_unfolding_all decide
  · with_unfolding_all decide

/-- Witness for C5 (amended) at concrete intensities: 0 is transparent in
both variants, and the adjacent pair (10, 11) is within the bound in both
variants. -/
theorem colorMap_continuity_check :
    getColorForIntensity 0 = none ∧ getColorForIntensityV2 0 = none ∧
    boundedStep getColorForIntensityV2 10 12 = true ∧
    boundedStep getColorForIntensity 10 25 = true :=
  ⟨colorMap_continuity.1 0 (by norm_num), colorMap_continuity.2.1 0 (by norm_num),
   colorMap_continuity.2.2.1 10 (by norm_num),
   colorMap_continuity.2.2.2 10 (by norm_num) (by norm_num)⟩

/-! ## Claim C7 -/

/-- C7 counterexample: at 440 Hz the rounded value
`n = round(12 * log2(440/440)) = 0` (certified exactly by `isRound12Log2`).
The claim's formula — note index `n mod 12` into the table starting at C,
octave `floor((n+69)/12) - 1` — yields "C4", but the code computes the index
as `(n + 69) % 12 = 9` and returns "A4", as the claim's own example demands.
The claim's index formula therefore contradicts both the code and the
claim's own examples. -/
theorem noteIndex_formula_example :
    isRound12Log2 440 0 ∧ getNoteFromFreq 0 = some "A4" ∧
    specNoteFromFreq 0 = some "C4" ∧ getNoteFromFreq 0 ≠ specNoteFromFreq 0 := by
  refine ⟨?_, ?_, ?_, ?_⟩ <;> with_unfolding_all decide

/-- C7 (amended): for every frequency f > 0 with
`n = round(12 * log2(f / 440))` (characterized exactly by `isRound12Log2`)
such that the MIDI number `n + 69` is nonnegative (true for every audible
frequency), the function returns the note name at index `(n + 69) mod 12` in
the fixed chromatic table starting at C, with octave
`floor((n + 69) / 12) - 1`; in particular 440 Hz yields "A4" and 261.63 Hz
yields "C4". -/
theorem getNoteFromFreq_formula :
    (∀ (f : ℚ) (n0 : ℤ), isRound12Log2 f n0 → -69 ≤ n0 →
      getNoteFromFreq n0 =
        some (noteStrings.getD (((n0 + 69) % 12).toNat) "" ++
          toString (Int.fdiv (n0 + 69) 12 - 1))) ∧
    (isRound12Log2 440 0 ∧ getNoteFromFreq 0 = some "A4") ∧
    (isRound12Log2 (26163 / 100) (-9) ∧ getNoteFromFreq (-9) = some "C4") := by
  refine ⟨?_, ⟨?_, ?_⟩, ⟨?_, ?_⟩⟩
  · intro f n0 _ hn
    have h69 : (0 : ℤ) ≤ n0 + 69 := by omega
    have htm : Int.tmod (n0 + 69) 12 = (n0 + 69) % 12 :=
      Int.tmod_eq_emod h69 (by norm_num)
    simp only [getNoteFromFreq]
    rw [htm, if_pos (Int.emod_nonneg _ (by norm_num))]
  · with_unfolding_all decide
  · with_unfolding_all decide
  · with_unfolding_all decide
  · with_unfolding_all decide

/-- Witness for C7 (amended) at 440 Hz: the rounded value is 0 and the
formula produces the A4 string. -/
theorem getNoteFromFreq_formula_check :
    getNoteFromFreq 0 =
      some (noteStrings.getD ((((0 : ℤ) + 69) % 12).toNat) "" ++
        toString (Int.fdiv ((0 : ℤ) + 69) 12 - 1)) :=
  getNoteFromFreq_formula.1 440 0 (by with_unfolding_all decide) (by norm_num)

end EstVocal
